import Mathlib

/-!
Shallow embedding of the response-formatting and context-tracking pipeline of
`app.py` (classes `ConversationContext`, functions `sanitize_response`,
`format_mathematical_notation`, `generate_emoji`,
`generate_response_with_context`, and the `/api/query` handler).

Text is modelled as `List Char` (Python `str`), with `String` wrappers for the
top-level functions.  Python string methods used by the source
(`str.replace` with and without a count, `str.split`, `str.strip`,
`str.lower`, the `in` substring test) are embedded as executable functions
below, and the concrete regular expressions of the source
(`\n{3,}`, `^(Step\s*\d+:)`, `^(Conclusion:)`, `\$\$(.*?)\$\$`, `\$(.*?)\$`,
`([a-zA-Z]_[0-9a-zA-Z]|[a-zA-Z])`) are embedded as the deterministic scans
they denote (each pattern is backtracking-free, so leftmost
shortest/greedy matching is a plain recursion).  The external model client
(`model.generate_content`) and `random.choice` are modelled as parameters:
an `Except String String` for the model outcome and a `Nat` index selecting
the emoji.  Character classes (`\s`, `\d`, letters) are the ASCII classes;
the source's keyword tables are ASCII, so `str.lower` is charwise
`Char.toLower`.
-/

/-- Python whitespace for `str.strip` and the regex class `\s` (ASCII part). -/
def isPySpace (c : Char) : Bool :=
  c = ' ' || c = '\t' || c = '\n' || c = '\r' || c = '\x0b' || c = '\x0c'

/-- Python `str.lower`, charwise (ASCII). -/
def lowerList (s : String) : List Char :=
  s.toList.map Char.toLower

/-- Python `str.strip()`: drop leading and trailing whitespace. -/
def pyStrip (l : List Char) : List Char :=
  ((l.dropWhile isPySpace).reverse.dropWhile isPySpace).reverse

/-- Python `needle in hay` (contiguous substring test). -/
def containsSub : List Char → List Char → Bool
  | needle, [] => needle.isEmpty
  | needle, c :: rest => needle.isPrefixOf (c :: rest) || containsSub needle rest

/-- Split a list at the first occurrence of `needle`: returns the part before
the occurrence and the part after it. -/
def splitOnFirst (needle : List Char) : List Char → Option (List Char × List Char)
  | [] => if needle.isPrefixOf ([] : List Char) then some ([], []) else none
  | c :: rest =>
    if needle.isPrefixOf (c :: rest) then some ([], (c :: rest).drop needle.length)
    else
      match splitOnFirst needle rest with
      | some (b, a) => some (c :: b, a)
      | none => none

theorem isPrefixOf_length_le {l₁ l₂ : List Char} (h : l₁.isPrefixOf l₂) :
    l₁.length ≤ l₂.length := by
  have := List.isPrefixOf_iff_prefix.mp h
  exact this.length_le

theorem splitOnFirst_length (needle : List Char) :
    ∀ hay b a : List Char, splitOnFirst needle hay = some (b, a) →
      a.length + needle.length ≤ hay.length := by
  intro hay
  induction hay with
  | nil =>
    intro b a h
    simp only [splitOnFirst] at h
    by_cases hp : needle.isPrefixOf ([] : List Char)
    · have hle := isPrefixOf_length_le hp
      rw [if_pos hp] at h
      simp only [Option.some.injEq, Prod.mk.injEq] at h
      obtain ⟨hb, ha⟩ := h
      subst ha
      simpa using hle
    · rw [if_neg hp] at h
      exact absurd h (by simp)
  | cons c rest ih =>
    intro b a h
    simp only [splitOnFirst] at h
    by_cases hp : needle.isPrefixOf (c :: rest)
    · have hle := isPrefixOf_length_le hp
      rw [if_pos hp] at h
      simp only [Option.some.injEq, Prod.mk.injEq] at h
      obtain ⟨hb, ha⟩ := h
      subst ha
      simp only [List.length_drop]
      omega
    · rw [if_neg hp] at h
      rcases heq : splitOnFirst needle rest with _ | ⟨b', a'⟩
      · rw [heq] at h; exact absurd h (by simp)
      · rw [heq] at h
        simp only [Option.some.injEq, Prod.mk.injEq] at h
        obtain ⟨hb, ha⟩ := h
        subst ha
        have := ih b' a' heq
        simp only [List.length_cons]
        omega

/-- Python `hay.replace(needle, repl, 1)`: replace the first occurrence only. -/
def replaceFirst (needle repl : List Char) : List Char → List Char
  | [] => if needle.isPrefixOf ([] : List Char) then repl else []
  | c :: rest =>
    if needle.isPrefixOf (c :: rest) then repl ++ (c :: rest).drop needle.length
    else c :: replaceFirst needle repl rest

/-- Python `hay.replace(needle, repl)` for a nonempty needle `n :: ns`:
replace every non-overlapping occurrence, scanning left to right.  The
`Nat` argument is the number of characters of the current match still to
be consumed without rescanning (the scan resumes after a replaced
occurrence); it is `0` in normal scanning. -/
def replaceAllGo (n : Char) (ns repl : List Char) : Nat → List Char → List Char
  | s + 1, _ :: rest => replaceAllGo n ns repl s rest
  | _, [] => []
  | 0, c :: rest =>
    if (n :: ns).isPrefixOf (c :: rest) then repl ++ replaceAllGo n ns repl ns.length rest
    else c :: replaceAllGo n ns repl 0 rest

/-- Python `hay.replace(needle, repl)`; the source never calls it with an
empty needle, for which the embedding is the identity. -/
def replaceAll (needle repl : List Char) (hay : List Char) : List Char :=
  match needle with
  | [] => hay
  | n :: ns => replaceAllGo n ns repl 0 hay

/-- Python `text.split(sep)` for a nonempty separator `n :: ns`; `acc` holds
the current piece reversed, and the `Nat` argument consumes the rest of a
separator occurrence without rescanning. -/
def pySplitGo (n : Char) (ns : List Char) : Nat → List Char → List Char → List (List Char)
  | s + 1, acc, _ :: rest => pySplitGo n ns s acc rest
  | _, acc, [] => [acc.reverse]
  | 0, acc, c :: rest =>
    if (n :: ns).isPrefixOf (c :: rest) then
      acc.reverse :: pySplitGo n ns ns.length [] rest
    else pySplitGo n ns 0 (c :: acc) rest

/-- Python `text.split(sep)`; the source only splits on `"\n\n"`. -/
def pySplit (sep : List Char) (l : List Char) : List (List Char) :=
  match sep with
  | [] => [l]
  | n :: ns => pySplitGo n ns 0 [] l

/-! ## MathNotationFormatter (`format_mathematical_notation`, app.py lines 236-273) -/

/-- `re.sub(r'\*\*', '^', text)`: replace each non-overlapping `**` pair,
scanning left to right. -/
def replaceDoubleStar : List Char → List Char
  | '*' :: '*' :: rest => '^' :: replaceDoubleStar rest
  | c :: rest => c :: replaceDoubleStar rest
  | [] => []

/-- `re.sub(r'\*', '×', text)`. -/
def replaceStar (l : List Char) : List Char :=
  l.map (fun c => if c = '*' then '×' else c)

/-- All matches of `re.finditer(r'\$\$(.*?)\$\$', text, re.DOTALL)` over the
given text, in order: pairs of (whole match, inner group).  The pattern is
backtracking-free, so each match takes the shortest inner span up to the
next `$$`. -/
def findDDGo : Nat → List Char → List (List Char × List Char)
  | s + 1, _ :: rest => findDDGo s rest
  | _, [] => []
  | 0, c :: rest =>
    if ['$', '$'].isPrefixOf (c :: rest) then
      match splitOnFirst ['$', '$'] ((c :: rest).drop 2) with
      | some (inner, _) =>
        (['$', '$'] ++ inner ++ ['$', '$'], inner) :: findDDGo (3 + inner.length) rest
      | none => []
    else findDDGo 0 rest

/-- Entry point of the double-dollar scan. -/
def findDD (t : List Char) : List (List Char × List Char) :=
  findDDGo 0 t

/-- All matches of `re.finditer(r'\$(.*?)\$', text)` (no DOTALL: the inner
group cannot cross a newline), in order. -/
def findDGo : Nat → List Char → List (List Char × List Char)
  | s + 1, _ :: rest => findDGo s rest
  | _, [] => []
  | 0, c :: rest =>
    if c = '$' then
      match splitOnFirst ['$'] (rest.takeWhile (fun x => x ≠ '\n')) with
      | some (inner, _) => ('$' :: (inner ++ ['$']), inner) :: findDGo (inner.length + 1) rest
      | none => findDGo 0 rest
    else findDGo 0 rest

/-- Entry point of the single-dollar scan. -/
def findD (t : List Char) : List (List Char × List Char) :=
  findDGo 0 t

/-- The equation loop of `format_mathematical_notation`: `re.finditer` runs
over the text as it was before the loop, and each iteration does a
full-text `str.replace` of that match's whole text on the evolving text. -/
def applyEquations (t : List Char) : List Char :=
  (findDD t).foldl
    (fun acc m =>
      replaceAll m.1 ("<div class=\"equation\">".toList ++ pyStrip m.2 ++ "</div>".toList) acc)
    t

/-- The inline-math loop of `format_mathematical_notation` (same shape as
the equation loop, with the single-dollar pattern and a span wrapper). -/
def applyInline (t : List Char) : List Char :=
  (findD t).foldl
    (fun acc m =>
      replaceAll m.1
        ("<span class=\"math-expression\">".toList ++ pyStrip m.2 ++ "</span>".toList) acc)
    t

/-- The step-splitting pass: split on blank lines, wrap each non-blank
stripped step in a solution-step div, join with single newlines. -/
def applySteps (t : List Char) : List Char :=
  List.intercalate ['\n']
    (((pySplit ['\n', '\n'] t).filter (fun s => !(pyStrip s).isEmpty)).map
      (fun s => "<div class=\"solution-step\">".toList ++ pyStrip s ++ "</div>".toList))

/-- All matches of `re.finditer(r'([a-zA-Z]_[0-9a-zA-Z]|[a-zA-Z])', text)`,
in order.  At a letter, the three-character letter-underscore-alphanumeric
alternative is preferred; matches do not overlap. -/
def scanSymbolsGo : Nat → List Char → List (List Char)
  | s + 1, _ :: rest => scanSymbolsGo s rest
  | _, [] => []
  | 0, c :: rest =>
    if c.isAlpha then
      match rest with
      | d1 :: d2 :: _ =>
        if d1 = '_' && d2.isAlphanum then [c, '_', d2] :: scanSymbolsGo 2 rest
        else [c] :: scanSymbolsGo 0 rest
      | _ => [c] :: scanSymbolsGo 0 rest
    else scanSymbolsGo 0 rest

/-- Entry point of the symbol scan. -/
def scanSymbols (t : List Char) : List (List Char) :=
  scanSymbolsGo 0 t

/-- The stopword list of the symbol loop (Python list of strings). -/
def pyStops : List (List Char) :=
  ["a".toList, "an".toList, "the".toList, "in".toList, "on".toList,
   "at".toList, "to".toList, "for".toList]

/-- The symbol-highlighting loop: for every match of the scan (one per
occurrence), skip it if it equals a stopword, otherwise replace the first
occurrence of the matched token in the evolving text (`str.replace`
with count 1) by the span-wrapped token. -/
def applySymbols (t : List Char) : List Char :=
  (scanSymbols t).foldl
    (fun acc tok =>
      if tok ∈ pyStops then acc
      else replaceFirst tok ("<span class=\"symbol\">".toList ++ tok ++ "</span>".toList) acc)
    t

/-- `format_mathematical_notation` (app.py lines 236-273): the six passes in
source order. -/
def format_mathematical_notation (text : String) : String :=
  String.mk (applySymbols (applySteps (applyInline (applyEquations
    (replaceStar (replaceDoubleStar text.toList))))))

/-! ## TextSanitizer (`sanitize_response`, app.py lines 207-234) -/

/-- `re.sub(r'\n{3,}', '\n\n', text)`: every maximal run of three or more
newlines is replaced by exactly two (equivalently: drop each newline that
would be the third or later of a run).  `n` counts the newlines of the
current run already emitted. -/
def collapseNLGo (n : Nat) : List Char → List Char
  | [] => []
  | c :: rest =>
    if c = '\n' then
      if n < 2 then c :: collapseNLGo (n + 1) rest else collapseNLGo (n + 1) rest
    else c :: collapseNLGo 0 rest

/-- The newline-collapsing pass of `sanitize_response`. -/
def collapseNewlines (l : List Char) : List Char :=
  collapseNLGo 0 l

/-- Length of the match of `Step\s*\d+:` at the start of `cs`, if any
(`\s*` then `\d+` then `:` match deterministically: whitespace and digits
are disjoint, so the backtracking regex has a single possible match). -/
def stepHeaderLen (cs : List Char) : Option Nat :=
  if "Step".toList.isPrefixOf cs then
    if (((cs.drop 4).dropWhile isPySpace).takeWhile Char.isDigit).isEmpty = false ∧
        (((cs.drop 4).dropWhile isPySpace).dropWhile Char.isDigit).head? = some ':' then
      some (4 + ((cs.drop 4).takeWhile isPySpace).length +
        (((cs.drop 4).dropWhile isPySpace).takeWhile Char.isDigit).length + 1)
    else none
  else none

theorem stepHeaderLen_pos {cs : List Char} {k : Nat} (h : stepHeaderLen cs = some k) :
    0 < k := by
  unfold stepHeaderLen at h
  split at h
  · split at h
    · simp only [Option.some.injEq] at h
      omega
    · exact absurd h (by simp)
  · exact absurd h (by simp)

/-- `re.sub(r'^(Step\s*\d+:)', r'**\1**', text, flags=re.MULTILINE)`:
the Bool argument records whether the scan is at the start of the text or
just after a newline (where `^` matches); the `Nat` argument consumes the
rest of a match (already emitted, wrapped) without rescanning. -/
def applyStepBoldGo : Nat → Bool → List Char → List Char
  | s + 1, _, c :: rest => applyStepBoldGo s (c == '\n') rest
  | _, _, [] => []
  | 0, atStart, c :: rest =>
    if atStart then
      match stepHeaderLen (c :: rest) with
      | some k =>
        "**".toList ++ (c :: rest).take k ++ "**".toList ++ applyStepBoldGo (k - 1) false rest
      | none => c :: applyStepBoldGo 0 (c == '\n') rest
    else c :: applyStepBoldGo 0 (c == '\n') rest

/-- Entry point of the Step-header pass (`^` matches at the very start). -/
def applyStepBold (atStart : Bool) (l : List Char) : List Char :=
  applyStepBoldGo 0 atStart l

/-- `re.sub(r'^(Conclusion:)', r'**\1**', text, flags=re.MULTILINE)`. -/
def applyConclusionBoldGo : Nat → Bool → List Char → List Char
  | s + 1, _, c :: rest => applyConclusionBoldGo s (c == '\n') rest
  | _, _, [] => []
  | 0, atStart, c :: rest =>
    if atStart then
      if "Conclusion:".toList.isPrefixOf (c :: rest) then
        "**Conclusion:**".toList ++ applyConclusionBoldGo 10 false rest
      else c :: applyConclusionBoldGo 0 (c == '\n') rest
    else c :: applyConclusionBoldGo 0 (c == '\n') rest

/-- Entry point of the Conclusion pass. -/
def applyConclusionBold (atStart : Bool) (l : List Char) : List Char :=
  applyConclusionBoldGo 0 atStart l

/-- `re.sub(r'\$\$(.*?)\$\$', r'**Equation:** \1', text, flags=re.DOTALL)`.
When an opening `$$` has no closing `$$` anywhere after it, no further
match exists in the text, so the remainder is emitted unchanged. -/
def subDollarDollarGo : Nat → List Char → List Char
  | s + 1, _ :: rest => subDollarDollarGo s rest
  | _, [] => []
  | 0, c :: rest =>
    if ['$', '$'].isPrefixOf (c :: rest) then
      match splitOnFirst ['$', '$'] ((c :: rest).drop 2) with
      | some (inner, _) =>
        "**Equation:** ".toList ++ inner ++ subDollarDollarGo (3 + inner.length) rest
      | none => c :: rest
    else c :: subDollarDollarGo 0 rest

/-- Entry point of the double-dollar substitution. -/
def subDollarDollar (t : List Char) : List Char :=
  subDollarDollarGo 0 t

/-- `re.sub(r'\$(.*?)\$', r'*\1*', text)` (no DOTALL). -/
def subDollarGo : Nat → List Char → List Char
  | s + 1, _ :: rest => subDollarGo s rest
  | _, [] => []
  | 0, c :: rest =>
    if c = '$' then
      match splitOnFirst ['$'] (rest.takeWhile (fun x => x ≠ '\n')) with
      | some (inner, _) => '*' :: (inner ++ '*' :: subDollarGo (inner.length + 1) rest)
      | none => c :: subDollarGo 0 rest
    else c :: subDollarGo 0 rest

/-- Entry point of the single-dollar substitution. -/
def subDollar (t : List Char) : List Char :=
  subDollarGo 0 t

/-- The XSS-escaping chain of `sanitize_response` (app.py lines 226-232):
the five `str.replace` calls in source order, ampersand first. -/
def escapeHtml (t : List Char) : List Char :=
  replaceAll ['\x27'] "&#039;".toList
    (replaceAll ['"'] "&quot;".toList
      (replaceAll ['>'] "&gt;".toList
        (replaceAll ['<'] "&lt;".toList
          (replaceAll ['&'] "&amp;".toList t))))

/-- `sanitize_response` (app.py lines 207-234): the four regex passes, then
`str.strip`, then the HTML-escaping chain. -/
def sanitize_response (text : String) : String :=
  String.mk (escapeHtml (pyStrip (subDollar (subDollarDollar
    (applyConclusionBold true (applyStepBold true (collapseNewlines text.toList)))))))

/-! ## ConversationContext (app.py lines 123-170) -/

/-- One stored interaction: the dict
`{'user_query': ..., 'ai_response': ...}`. -/
structure Interaction where
  user_query : String
  ai_response : String
deriving DecidableEq, Repr

/-- The `ConversationContext` class state. -/
structure ConversationContext where
  history : List Interaction
  max_history : Nat
  current_topic : Option String
  difficulty_level : String
deriving DecidableEq, Repr

/-- `ConversationContext.__init__(max_history=5)`. -/
def ConversationContext.init (max_history : Nat) : ConversationContext :=
  { history := [], max_history := max_history, current_topic := none,
    difficulty_level := "intermediate" }

/-- The module-level `conversation_context = ConversationContext()`. -/
def conversation_context : ConversationContext :=
  ConversationContext.init 5

/-- `ConversationContext.add_interaction` (app.py lines 130-139): if the
history has reached `max_history`, `pop(0)` the oldest entry, then append
the new pair.  (`list.pop(0)` on a nonempty list is `List.drop 1`; under
the `max_history ≥ 1` invariant the popped list is never empty.) -/
def ConversationContext.add_interaction (ctx : ConversationContext)
    (user_query ai_response : String) : ConversationContext :=
  { ctx with
    history :=
      (if ctx.history.length ≥ ctx.max_history then ctx.history.drop 1 else ctx.history) ++
        [{ user_query := user_query, ai_response := ai_response }] }

/-- A sequence of `add_interaction` calls, in order. -/
def foldAdd (ctx : ConversationContext) (ps : List (String × String)) : ConversationContext :=
  ps.foldl (fun c p => c.add_interaction p.1 p.2) ctx

/-- `any(keyword in query.lower() for keyword in keywords)`. -/
def kwAny (keywords : List String) (query : String) : Bool :=
  keywords.any (fun kw => containsSub kw.toList (lowerList query))

def mathematics_keywords : List String :=
  ["math", "algebra", "geometry", "calculus", "trigonometry"]

def science_keywords : List String :=
  ["physics", "chemistry", "biology", "science"]

def language_keywords : List String :=
  ["english", "grammar", "writing", "literature"]

def history_keywords : List String :=
  ["history", "historical", "civilization", "era"]

def technology_keywords : List String :=
  ["computer", "programming", "tech", "coding"]

/-- The `topics` dict of `detect_topic`, in insertion order (Python 3.7+
dicts iterate in insertion order). -/
def topics : List (String × List String) :=
  [("mathematics", mathematics_keywords), ("science", science_keywords),
   ("language", language_keywords), ("history", history_keywords),
   ("technology", technology_keywords)]

/-- `ConversationContext.detect_topic` (app.py lines 141-156): first topic
whose keyword set matches wins and is stored in `current_topic`; no match
returns `None` and leaves the state unchanged. -/
def detect_topic (ctx : ConversationContext) (query : String) :
    Option String × ConversationContext :=
  match topics.find? (fun p => kwAny p.2 query) with
  | some p => (some p.1, { ctx with current_topic := some p.1 })
  | none => (none, ctx)

def advanced_indicators : List String :=
  ["prove", "derive", "complex", "advanced", "theoretical"]

def beginner_indicators : List String :=
  ["explain", "what is", "basic", "simple", "introduction"]

/-- The `complexity_indicators` dict of `adjust_difficulty`, in insertion
order: advanced first, then beginner. -/
def complexity_indicators : List (String × List String) :=
  [("advanced", advanced_indicators), ("beginner", beginner_indicators)]

/-- `ConversationContext.adjust_difficulty` (app.py lines 158-168): the
first level whose indicator set matches is stored (the loop `break`s);
no match leaves `difficulty_level` unchanged. -/
def adjust_difficulty (ctx : ConversationContext) (query : String) : ConversationContext :=
  match complexity_indicators.find? (fun p => kwAny p.2 query) with
  | some p => { ctx with difficulty_level := p.1 }
  | none => ctx

/-! ## ResponseGenerator (app.py lines 172-178 and 322-378) -/

/-- The `emojis` list of `generate_emoji` (app.py lines 174-177). -/
def emojis : List String :=
  ["😊", "🌟", "👍", "🚀", "🤔", "💡", "📚", "🎓",
   "🧠", "✨", "🌈", "👏", "🤓", "💪", "🌞"]

/-- `generate_emoji` (app.py lines 172-178): `random.choice(emojis)`, with
the random draw modelled as an index `k` reduced modulo the list length. -/
def generate_emoji (k : Nat) : String :=
  emojis.getD (k % emojis.length) "😊"

/-- The trigger-keyword list of the canned-response branch
(app.py line 326). -/
def trigger_keywords : List String :=
  ["dimension", "dimensional analysis", "viscosity", "prove", "derivation"]

/-- `any(keyword in query.lower() for keyword in [...])` at app.py
line 326. -/
def isCannedQuery (query : String) : Bool :=
  trigger_keywords.any (fun kw => containsSub kw.toList (lowerList query))

/-- The fixed dimensional-analysis passage (app.py lines 327-353). -/
def canned_response : String :=
  "😮‍💨 💗 Dimensional Analysis of Viscosity\n\n**Step 1: Define the Physical Quantity**\nViscosity (η) is a measure of a fluid\x27s resistance to flow, defined as the ratio of shear stress to shear rate.\n\n**Symbolic Representation:**\nη = τ / γ̇\n\n**Step 2: Dimensional Analysis of Components**\n- Shear Stress (τ): Force per unit area\n  * Dimensions: [M L T^-2] / [L^2] = [M L^-1 T^-2]\n- Shear Rate (γ̇): Velocity gradient\n  * Dimensions: [L T^-1] / [L] = [T^-1]\n\n**Step 3: Dimensional Consistency**\nCombining the dimensions:\n[τ / γ̇] = [M L^-1 T^-2] / [T^-1] = [M L^-1 T^-1]\n\n**Step 4: Physical Interpretation**\nThe dimensional analysis confirms that viscosity has consistent units:\n- Mass per length per time\n- Typically expressed in Pascal-seconds (Pa·s)\n\n**Key Insights:**\n- Viscosity quantifies a fluid\x27s internal resistance to flow\n- Dimensional analysis validates the physical meaning of the quantity\n"

/-- The apologetic fallback text of the `except` branch (app.py line 378),
before the emoji is appended. -/
def apology_text : String :=
  "I\x27m sorry, I encountered an error processing your query. "

/-- The `context_prompt` f-string (app.py lines 357-369). -/
def context_prompt (ctx : ConversationContext) (query : String) : String :=
  "Context:\n- Current Query: " ++ query ++ "\n- Conversation History: " ++
    toString ctx.history.length ++
    " previous interactions\n\nGuidelines:\n1. Provide a clear, comprehensive response\n2. Break down complex topics into digestible steps\n3. Use engaging and accessible language\n4. Include practical examples or real-world applications\n5. Use standard mathematical notation for equations\n\nQuery: " ++
    query ++ "\n"

/-- `generate_response_with_context` (app.py lines 322-378).  The external
model call is modelled by `modelResult` (`Except.error` for a raised
exception, `Except.ok` for returned text) and the `random.choice` of the
fallback emoji by the index `k`.  Canned branch: the fixed passage through
the formatter only.  Success branch: formatter then sanitizer.  Failure
branch: the apology with an emoji appended (no exception propagates). -/
def generate_response_with_context (ctx : ConversationContext) (query : String)
    (modelResult : Except String String) (k : Nat) : String :=
  if isCannedQuery query then format_mathematical_notation canned_response
  else
    match modelResult with
    | Except.ok text => sanitize_response ( format_mathematical_notation text)
    | Except.error _ => apology_text ++ generate_emoji k

/-- The `/api/query` handler (app.py lines 297-320), success path: generate
a response (which never raises), record the interaction in the shared
context, return `success, response` plus the updated context.  (The unused
`regenerate` field of the request is omitted.) -/
def api_query (ctx : ConversationContext) (query_text : String)
    (modelResult : Except String String) (k : Nat) :
    (Bool × String) × ConversationContext :=
  ((true, generate_response_with_context ctx query_text modelResult k),
    ctx.add_interaction query_text
      (generate_response_with_context ctx query_text modelResult k))

/-! ## Specification predicates and reference definitions used by the claims -/

/-- Character-level view of the five-step escaping chain: what one input
character becomes after all five replacements. -/
def escChar (c : Char) : List Char :=
  if c = '&' then "&amp;".toList
  else if c = '<' then "&lt;".toList
  else if c = '>' then "&gt;".toList
  else if c = '"' then "&quot;".toList
  else if c = '\x27' then "&#039;".toList
  else [c]

/-- The tails of the five entities the escaping chain introduces. -/
def entityTails : List (List Char) :=
  ["amp;".toList, "lt;".toList, "gt;".toList, "quot;".toList, "#039;".toList]

/-- Every ampersand in the text starts one of the five entities of the
escaping chain. -/
def ampOkB : List Char → Bool
  | [] => true
  | c :: rest =>
    (if c = '&' then entityTails.any (fun e => e.isPrefixOf rest) else true) && ampOkB rest

/-- No literal `<`, `>`, `"` or `'` occurs in the text. -/
def noBadChars (l : List Char) : Bool :=
  l.all (fun c => !(c = '<' || c = '>' || c = '"' || c = '\x27'))

/-- Modelled from the words of claim C8 (not from the source): wrap the
first occurrence of each distinct scanned token outside the stopword set in
the symbol-highlight span, leave every other occurrence and every other
character unchanged.  `done` collects the tokens already wrapped. -/
def specSymbolGo (done : List (List Char)) : Nat → List Char → List Char
  | s + 1, _ :: rest => specSymbolGo done s rest
  | _, [] => []
  | 0, c :: rest =>
    if c.isAlpha then
      match rest with
      | d1 :: d2 :: _ =>
        if d1 = '_' && d2.isAlphanum then
          if [c, '_', d2] ∈ pyStops ∨ [c, '_', d2] ∈ done then
            c :: d1 :: d2 :: specSymbolGo done 2 rest
          else
            "<span class=\"symbol\">".toList ++ [c, '_', d2] ++ "</span>".toList ++
              specSymbolGo ([c, '_', d2] :: done) 2 rest
        else
          if [c] ∈ pyStops ∨ [c] ∈ done then c :: specSymbolGo done 0 rest
          else
            "<span class=\"symbol\">".toList ++ [c] ++ "</span>".toList ++
              specSymbolGo ([c] :: done) 0 rest
      | _ =>
        if [c] ∈ pyStops ∨ [c] ∈ done then c :: specSymbolGo done 0 rest
        else
          "<span class=\"symbol\">".toList ++ [c] ++ "</span>".toList ++
            specSymbolGo ([c] :: done) 0 rest
    else c :: specSymbolGo done 0 rest

/-- The symbol-highlighting behaviour claimed by C8. -/
def specSymbolPass (t : List Char) : List Char :=
  specSymbolGo [] 0 t

/-! ## C1: the escaping chain of `sanitize_response` -/

theorem replaceAllGo_nil_cons (c : Char) (r : List Char) (x : Char) (l : List Char) :
    replaceAllGo c [] r 0 (x :: l) = (if x = c then r else [x]) ++ replaceAllGo c [] r 0 l := by
  by_cases hx : x = c
  · subst hx
    simp [replaceAllGo, List.isPrefixOf]
  · simp [replaceAllGo, List.isPrefixOf, hx, Ne.symm hx]

theorem replaceAllGo_nil_append (c : Char) (r : List Char) (u v : List Char) :
    replaceAllGo c [] r 0 (u ++ v) = replaceAllGo c [] r 0 u ++ replaceAllGo c [] r 0 v := by
  induction u with
  | nil => simp [replaceAllGo]
  | cons x u ih =>
    rw [List.cons_append, replaceAllGo_nil_cons, replaceAllGo_nil_cons, ih, List.append_assoc]

theorem replaceAll_cons (n : Char) (ns r hay : List Char) :
    replaceAll (n :: ns) r hay = replaceAllGo n ns r 0 hay := rfl

theorem escapeHtml_cons (x : Char) (l : List Char) :
    escapeHtml (x :: l) = escChar x ++ escapeHtml l := by
  simp only [escapeHtml, replaceAll_cons]
  rw [replaceAllGo_nil_cons]
  rw [replaceAllGo_nil_append]
  rw [replaceAllGo_nil_append]
  rw [replaceAllGo_nil_append]
  rw [replaceAllGo_nil_append]
  congr 1
  by_cases h1 : x = '&'
  · subst h1; rfl
  by_cases h2 : x = '<'
  · subst h2; rfl
  by_cases h3 : x = '>'
  · subst h3; rfl
  by_cases h4 : x = '"'
  · subst h4; rfl
  by_cases h5 : x = '\x27'
  · subst h5; rfl
  simp [escChar, replaceAllGo_nil_cons, replaceAllGo, h1, h2, h3, h4, h5]

theorem isPrefixOf_append_self (u v : List Char) : u.isPrefixOf (u ++ v) = true := by
  induction u with
  | nil => simp [List.isPrefixOf]
  | cons x u ih => simp [List.isPrefixOf, ih]

theorem escChar_noBad (x : Char) : noBadChars (escChar x) = true := by
  by_cases h1 : x = '&'
  · subst h1; rfl
  by_cases h2 : x = '<'
  · subst h2; rfl
  by_cases h3 : x = '>'
  · subst h3; rfl
  by_cases h4 : x = '"'
  · subst h4; rfl
  by_cases h5 : x = '\x27'
  · subst h5; rfl
  simp [escChar, noBadChars, h1, h2, h3, h4, h5]

theorem ampOkB_escChar_append (x : Char) (rest : List Char) (h : ampOkB rest = true) :
    ampOkB (escChar x ++ rest) = true := by
  by_cases h1 : x = '&'
  · subst h1
    show ampOkB ('&' :: ("amp;".toList ++ rest)) = true
    simp [ampOkB, entityTails, isPrefixOf_append_self "amp;".toList rest, h]
  by_cases h2 : x = '<'
  · subst h2
    show ampOkB ('&' :: ("lt;".toList ++ rest)) = true
    simp [ampOkB, entityTails, isPrefixOf_append_self "lt;".toList rest, h]
  by_cases h3 : x = '>'
  · subst h3
    show ampOkB ('&' :: ("gt;".toList ++ rest)) = true
    simp [ampOkB, entityTails, isPrefixOf_append_self "gt;".toList rest, h]
  by_cases h4 : x = '"'
  · subst h4
    show ampOkB ('&' :: ("quot;".toList ++ rest)) = true
    simp [ampOkB, entityTails, isPrefixOf_append_self "quot;".toList rest, h]
  by_cases h5 : x = '\x27'
  · subst h5
    show ampOkB ('&' :: ("#039;".toList ++ rest)) = true
    simp [ampOkB, entityTails, isPrefixOf_append_self "#039;".toList rest, h]
  have hx : escChar x = [x] := by simp [escChar, h1, h2, h3, h4, h5]
  rw [hx]
  show ampOkB (x :: rest) = true
  simp [ampOkB, h1, h]

theorem escapeHtml_ok (l : List Char) :
    noBadChars (escapeHtml l) = true ∧ ampOkB (escapeHtml l) = true := by
  induction l with
  | nil => exact ⟨by decide, by decide⟩
  | cons x l ih =>
    obtain ⟨ih1, ih2⟩ := ih
    rw [escapeHtml_cons]
    constructor
    · have hx := escChar_noBad x
      simp only [noBadChars] at hx ih1 ⊢
      rw [List.all_append, hx, ih1]
      rfl
    · exact ampOkB_escChar_append x _ ih2

/-- C1: for every input, the output of `sanitize_response` contains no
literal `<`, `>`, `"` or `'`, and every `&` in the output is the leading
character of one of the five entities introduced by its own escaping chain
(which replaces, in source order, `&` first and then `<`, `>`, `"`, `'`
over the already-escaped text). -/
theorem c1_sanitize_output_escaped (t : String) :
    noBadChars (sanitize_response t).data = true ∧ ampOkB (sanitize_response t).data = true :=
  escapeHtml_ok (pyStrip (subDollar (subDollarDollar
    (applyConclusionBold true (applyStepBold true (collapseNewlines t.toList))))))

/-! ## C2: bounded FIFO history -/

theorem add_interaction_history (ctx : ConversationContext) (q r : String) :
    (ctx.add_interaction q r).history =
      (if ctx.history.length ≥ ctx.max_history then ctx.history.drop 1 else ctx.history) ++
        [{ user_query := q, ai_response := r }] := rfl

theorem add_interaction_max (ctx : ConversationContext) (q r : String) :
    (ctx.add_interaction q r).max_history = ctx.max_history := rfl

theorem foldAdd_max : ∀ (ps : List (String × String)) (ctx : ConversationContext),
    (foldAdd ctx ps).max_history = ctx.max_history := by
  intro ps
  induction ps with
  | nil => intro ctx; rfl
  | cons p ps ih =>
    intro ctx
    have hstep : foldAdd ctx (p :: ps) = foldAdd (ctx.add_interaction p.1 p.2) ps := rfl
    rw [hstep, ih, add_interaction_max]

theorem foldAdd_length_le : ∀ (ps : List (String × String)) (ctx : ConversationContext),
    1 ≤ ctx.max_history → ctx.history.length ≤ ctx.max_history →
    (foldAdd ctx ps).history.length ≤ ctx.max_history := by
  intro ps
  induction ps with
  | nil => intro ctx h1 h2; exact h2
  | cons p ps ih =>
    intro ctx h1 h2
    have hstep : foldAdd ctx (p :: ps) = foldAdd (ctx.add_interaction p.1 p.2) ps := rfl
    have hle : (ctx.add_interaction p.1 p.2).history.length ≤ ctx.max_history := by
      rw [add_interaction_history]
      by_cases hc : ctx.history.length ≥ ctx.max_history
      · rw [if_pos hc]
        simp only [List.length_append, List.length_drop, List.length_cons, List.length_nil]
        omega
      · rw [if_neg hc]
        simp only [List.length_append, List.length_cons, List.length_nil]
        omega
    have := ih (ctx.add_interaction p.1 p.2)
      (by rw [add_interaction_max]; exact h1)
      (by rw [add_interaction_max]; exact hle)
    rw [hstep]
    rw [add_interaction_max] at this
    exact this

theorem foldAdd_under_capacity : ∀ (ps : List (String × String)) (ctx : ConversationContext),
    ctx.history.length + ps.length ≤ ctx.max_history →
    (foldAdd ctx ps).history =
      ctx.history ++ ps.map (fun p => { user_query := p.1, ai_response := p.2 }) := by
  intro ps
  induction ps with
  | nil => intro ctx h; simp [foldAdd]
  | cons p ps ih =>
    intro ctx h
    simp only [List.length_cons] at h
    have hlt : ¬ (ctx.history.length ≥ ctx.max_history) := by omega
    have hstep : foldAdd ctx (p :: ps) = foldAdd (ctx.add_interaction p.1 p.2) ps := rfl
    have hadd : (ctx.add_interaction p.1 p.2).history =
        ctx.history ++ [{ user_query := p.1, ai_response := p.2 }] := by
      rw [add_interaction_history, if_neg hlt]
    have hcap : (ctx.add_interaction p.1 p.2).history.length + ps.length ≤
        (ctx.add_interaction p.1 p.2).max_history := by
      rw [add_interaction_max, hadd]
      simp only [List.length_append, List.length_cons, List.length_nil]
      omega
    rw [hstep, ih _ hcap, hadd]
    simp [List.map_cons, List.append_assoc]

/-- C2: starting from a fresh context with `max_history = N ≥ 1`, every
prefix of any sequence of `add_interaction` calls leaves at most `N` stored
interactions, and `N + 1` calls leave exactly `N`, namely the last `N`
pairs in call order (the first-added pair is evicted, FIFO). -/
theorem c2_history_fifo (N : Nat) (ps : List (String × String)) (k : Nat)
    (h : 1 ≤ N) :
    (foldAdd (ConversationContext.init N) (ps.take k)).history.length ≤ N ∧
    (ps.length = N + 1 →
      (foldAdd (ConversationContext.init N) ps).history =
        (ps.drop 1).map (fun p => { user_query := p.1, ai_response := p.2 }) ∧
      (foldAdd (ConversationContext.init N) ps).history.length = N) := by
  constructor
  · exact foldAdd_length_le (ps.take k) (ConversationContext.init N) h (by simp [ConversationContext.init])
  · intro hlen
    have hne : ps ≠ [] := by
      intro hh
      rw [hh] at hlen
      simp at hlen
    obtain ⟨l, y, hly⟩ : ∃ l y, ps = l ++ [y] :=
      ⟨ps.dropLast, ps.getLast hne, (List.dropLast_append_getLast hne).symm⟩
    have hl : l.length = N := by
      rw [hly] at hlen
      simp only [List.length_append, List.length_cons, List.length_nil] at hlen
      omega
    have hfold : foldAdd (ConversationContext.init N) ps =
        (foldAdd (ConversationContext.init N) l).add_interaction y.1 y.2 := by
      rw [hly]
      simp [foldAdd, List.foldl_append]
    have hcap : (ConversationContext.init N).history.length + l.length ≤
        (ConversationContext.init N).max_history := by
      simp [ConversationContext.init, hl]
    have hmid : (foldAdd (ConversationContext.init N) l).history =
        l.map (fun p => { user_query := p.1, ai_response := p.2 }) := by
      rw [foldAdd_under_capacity l _ hcap]
      simp [ConversationContext.init]
    have hmidlen : (foldAdd (ConversationContext.init N) l).history.length = N := by
      rw [hmid]
      simp [hl]
    have hmax : (foldAdd (ConversationContext.init N) l).max_history = N :=
      foldAdd_max l _
    have hfull : (foldAdd (ConversationContext.init N) l).history.length ≥
        (foldAdd (ConversationContext.init N) l).max_history := by
      rw [hmidlen, hmax]
    have hlne : l ≠ [] := by
      intro hh
      rw [hh] at hl
      simp at hl
      omega
    constructor
    · rw [hfold, add_interaction_history, if_pos hfull, hmid, hly]
      rw [List.drop_append_of_le_length (by omega : 1 ≤ l.length)]
      simp [List.map_append, List.map_drop]
    · rw [hfold, add_interaction_history, if_pos hfull]
      simp only [List.length_append, List.length_drop, List.length_cons, List.length_nil, hmidlen]
      omega

/-- Witness for `c2_history_fifo` at `N = 1` with two calls. -/
theorem c2_history_fifo_witness :
    (foldAdd (ConversationContext.init 1) ([("q1", "r1"), ("q2", "r2")].take 2)).history.length ≤ 1 ∧
    (foldAdd (ConversationContext.init 1) [("q1", "r1"), ("q2", "r2")]).history =
      [{ user_query := "q2", ai_response := "r2" }] ∧
    (foldAdd (ConversationContext.init 1) [("q1", "r1"), ("q2", "r2")]).history.length = 1 := by
  have h := c2_history_fifo 1 [("q1", "r1"), ("q2", "r2")] 2 (by decide)
  exact ⟨h.1, (h.2 rfl).1, (h.2 rfl).2⟩

/-! ## C6 and C7: topic detection and difficulty adjustment -/

/-- C6: `detect_topic` tests the five keyword sets in the fixed order
mathematics, science, language, history, technology with case-insensitive
substring matching; the first match is returned and stored in
`current_topic`, and with no match it returns `none` and leaves the context
unchanged.  In particular "I need help with calculus" detects mathematics
and "good morning" detects no topic. -/
theorem c6_detect_topic_first_match (ctx : ConversationContext) (q : String) :
    detect_topic ctx q =
      (if kwAny mathematics_keywords q then
        (some "mathematics", { ctx with current_topic := some "mathematics" })
      else if kwAny science_keywords q then
        (some "science", { ctx with current_topic := some "science" })
      else if kwAny language_keywords q then
        (some "language", { ctx with current_topic := some "language" })
      else if kwAny history_keywords q then
        (some "history", { ctx with current_topic := some "history" })
      else if kwAny technology_keywords q then
        (some "technology", { ctx with current_topic := some "technology" })
      else (none, ctx)) ∧
    (detect_topic ctx "I need help with calculus").1 = some "mathematics" ∧
    (detect_topic ctx "I need help with calculus").2.current_topic = some "mathematics" ∧
    detect_topic ctx "good morning" = (none, ctx) := by
  refine ⟨?_, rfl, rfl, rfl⟩
  cases h1 : kwAny mathematics_keywords q <;>
  cases h2 : kwAny science_keywords q <;>
  cases h3 : kwAny language_keywords q <;>
  cases h4 : kwAny history_keywords q <;>
  cases h5 : kwAny technology_keywords q <;>
  simp [detect_topic, topics, List.find?, h1, h2, h3, h4, h5]

/-- C7: `adjust_difficulty` tests the advanced indicators first, then the
beginner indicators, sets the level of the first matching set and stops;
no match leaves the stored level unchanged.  In particular
"explain what is gravity" sets beginner and "prove the derivation" sets
advanced. -/
theorem c7_adjust_difficulty_order (ctx : ConversationContext) (q : String) :
    adjust_difficulty ctx q =
      (if kwAny advanced_indicators q then { ctx with difficulty_level := "advanced" }
      else if kwAny beginner_indicators q then { ctx with difficulty_level := "beginner" }
      else ctx) ∧
    (adjust_difficulty ctx "explain what is gravity").difficulty_level = "beginner" ∧
    (adjust_difficulty ctx "prove the derivation").difficulty_level = "advanced" := by
  refine ⟨?_, rfl, rfl⟩
  cases h1 : kwAny advanced_indicators q <;>
  cases h2 : kwAny beginner_indicators q <;>
  simp [adjust_difficulty, complexity_indicators, List.find?, h1, h2]

/-! ## C4, C5, C3, C10: the response generator and the api handler -/

/-- C4: whenever the query case-insensitively contains one of the five
trigger keywords, `generate_response_with_context` returns the fixed canned
passage passed through the formatter only (not through the sanitizer), and
the result does not depend on the model outcome, the emoji draw, which
trigger matched, or any other content of the query. -/
theorem c4_canned_branch (ctx : ConversationContext) (q : String)
    (mr : Except String String) (k : Nat) (h : isCannedQuery q = true) :
    generate_response_with_context ctx q mr k = format_mathematical_notation canned_response := by
  simp [generate_response_with_context, h]

/-- Witness for `c4_canned_branch` on a query containing "viscosity". -/
theorem c4_canned_branch_witness :
    isCannedQuery "Tell me about viscosity, please" = true ∧
    generate_response_with_context conversation_context "Tell me about viscosity, please"
        (Except.ok "ignored") 3 = format_mathematical_notation canned_response :=
  ⟨by decide, c4_canned_branch conversation_context "Tell me about viscosity, please"
    (Except.ok "ignored") 3 (by decide)⟩

theorem generate_emoji_mem (k : Nat) : generate_emoji k ∈ emojis := by
  have hb : ∀ i < emojis.length, emojis.getD i "😊" ∈ emojis := by decide
  exact hb (k % emojis.length) (Nat.mod_lt k (by decide))

/-- C5: on the non-canned path, a model-client failure is not propagated:
the returned text is exactly the fixed apology with one of the fifteen
emojis appended, and it is non-empty.  (The embedding is total, mirroring
that the handler catches the exception and always returns a string.) -/
theorem c5_error_fallback (ctx : ConversationContext) (q err : String) (k : Nat)
    (h : isCannedQuery q = false) :
    generate_response_with_context ctx q (Except.error err) k =
      apology_text ++ generate_emoji k ∧
    generate_emoji k ∈ emojis ∧
    generate_response_with_context ctx q (Except.error err) k ≠ "" := by
  have heq : generate_response_with_context ctx q (Except.error err) k =
      apology_text ++ generate_emoji k := by
    simp [generate_response_with_context, h]
  refine ⟨heq, generate_emoji_mem k, ?_⟩
  rw [heq]
  intro hempty
  have hlen := congrArg String.length hempty
  rw [String.length_append] at hlen
  have h57 : apology_text.length = 57 := by decide
  have h0 : ("" : String).length = 0 := rfl
  rw [h57, h0] at hlen
  omega

/-- Witness for `c5_error_fallback` on the query "hello". -/
theorem c5_error_fallback_witness :
    isCannedQuery "hello" = false ∧
    (generate_response_with_context conversation_context "hello" (Except.error "boom") 0 =
      apology_text ++ generate_emoji 0 ∧
    generate_emoji 0 ∈ emojis ∧
    generate_response_with_context conversation_context "hello" (Except.error "boom") 0 ≠ "") :=
  ⟨by decide, c5_error_fallback conversation_context "hello" "boom" 0 (by decide)⟩

/-- Counterexample to C3 as stated: not every return path of
`generate_response_with_context` is an output of `sanitize_response`.  On
the error path the returned text contains a literal apostrophe (in
"I'm sorry"), an HTML-significant character that `sanitize_response` never
leaves in its output (`c1_sanitize_output_escaped`), so the returned text
is unsanitized. -/
theorem c3_counterexample_unsanitized_output :
    '\x27' ∈ (generate_response_with_context conversation_context "hello"
      (Except.error "boom") 0).data := by decide

/-- C3 amended: only on the model-success path (query not canned, model
call returns text) is the returned value the output of `sanitize_response`,
applied as the final transformation to the formatter output; the canned
path and the error path bypass the sanitizer. -/
theorem c3_success_path_sanitized (ctx : ConversationContext) (q t : String) (k : Nat)
    (h : isCannedQuery q = false) :
    generate_response_with_context ctx q (Except.ok t) k =
      sanitize_response ( format_mathematical_notation t) := by
  simp [generate_response_with_context, h]

/-- Witness for `c3_success_path_sanitized`. -/
theorem c3_success_path_sanitized_witness :
    isCannedQuery "hello" = false ∧
    generate_response_with_context conversation_context "hello" (Except.ok "2 + 2") 0 =
      sanitize_response ( format_mathematical_notation "2 + 2") :=
  ⟨by decide, c3_success_path_sanitized conversation_context "hello" "2 + 2" 0 (by decide)⟩

/-- C10: every successfully handled `/api/query` request — whatever the
query, canned triggers included, and whatever the model outcome — returns
success and appends exactly one interaction to the context (length grows
by one until capacity, stays at capacity afterwards; the appended entry is
the returned response paired with the query).  When the query is not
canned and the model call fails, the stored response is the apologetic
fallback text with its emoji, so history grows on failed generations as
well as successful ones. -/
theorem c10_api_query_records_interaction (ctx : ConversationContext) (q err : String)
    (mr : Except String String) (k : Nat)
    (h1 : ctx.history.length ≤ ctx.max_history) (h2 : 1 ≤ ctx.max_history) :
    (api_query ctx q mr k).1.1 = true ∧
    (api_query ctx q mr k).2.history.length = min (ctx.history.length + 1) ctx.max_history ∧
    (api_query ctx q mr k).2.history.getLast? =
      some { user_query := q, ai_response := generate_response_with_context ctx q mr k } ∧
    (isCannedQuery q = false →
      (api_query ctx q (Except.error err) k).2.history.getLast? =
        some { user_query := q, ai_response := apology_text ++ generate_emoji k }) := by
  refine ⟨rfl, ?_, ?_, ?_⟩
  · show (ctx.add_interaction q _).history.length = _
    rw [add_interaction_history]
    by_cases hc : ctx.history.length ≥ ctx.max_history
    · rw [if_pos hc]
      simp only [List.length_append, List.length_drop, List.length_cons, List.length_nil]
      omega
    · rw [if_neg hc]
      simp only [List.length_append, List.length_cons, List.length_nil]
      omega
  · show (ctx.add_interaction q _).history.getLast? = _
    rw [add_interaction_history, List.getLast?_concat]
  · intro h3
    show (ctx.add_interaction q _).history.getLast? = _
    rw [add_interaction_history, List.getLast?_concat]
    simp [generate_response_with_context, h3]

/-- Witness for `c10_api_query_records_interaction` on the fresh context. -/
theorem c10_api_query_records_interaction_witness :
    (api_query conversation_context "hello" (Except.ok "fine") 0).1.1 = true ∧
    (api_query conversation_context "hello" (Except.ok "fine") 0).2.history.length =
      min (conversation_context.history.length + 1) conversation_context.max_history ∧
    (api_query conversation_context "hello" (Except.ok "fine") 0).2.history.getLast? =
      some { user_query := "hello",
             ai_response := generate_response_with_context conversation_context "hello"
               (Except.ok "fine") 0 } ∧
    (api_query conversation_context "hello" (Except.error "boom") 0).2.history.getLast? =
      some { user_query := "hello", ai_response := apology_text ++ generate_emoji 0 } := by
  have h := c10_api_query_records_interaction conversation_context "hello" "boom"
    (Except.ok "fine") 0 (by decide) (by decide)
  exact ⟨h.1, h.2.1, h.2.2.1, h.2.2.2 (by decide)⟩

/-! ## C8: the symbol-highlighting pass -/

theorem scanSymbolsGo_shape : ∀ (n : Nat) (t : List Char), t.length ≤ n →
    ∀ (s : Nat) (tok : List Char), tok ∈ scanSymbolsGo s t →
      (∃ c, tok = [c] ∧ c ∈ t) ∨ (∃ c d, tok = [c, '_', d]) := by
  intro n
  induction n with
  | zero =>
    intro t ht s tok hmem
    have ht0 : t = [] := List.length_eq_zero.mp (Nat.le_zero.mp ht)
    subst ht0
    rcases s with _ | s <;> simp [scanSymbolsGo] at hmem
  | succ n ih =>
    intro t ht s tok hmem
    rcases t with _ | ⟨c, rest⟩
    · rcases s with _ | s <;> simp [scanSymbolsGo] at hmem
    simp only [List.length_cons] at ht
    rcases s with _ | s
    · by_cases ha : c.isAlpha
      · rcases rest with _ | ⟨d1, rest1⟩
        · simp [scanSymbolsGo, ha] at hmem
          exact Or.inl ⟨c, hmem, by simp⟩
        rcases rest1 with _ | ⟨d2, rest2⟩
        · simp [scanSymbolsGo, ha] at hmem
          rcases hmem with hmem | ⟨hd1, hmem⟩
          · exact Or.inl ⟨c, hmem, by simp⟩
          · exact Or.inl ⟨d1, hmem, by simp⟩
        · by_cases hsub : (d1 = '_' && d2.isAlphanum) = true
          · have hstep : scanSymbolsGo 0 (c :: d1 :: d2 :: rest2) =
                [c, '_', d2] :: scanSymbolsGo 2 (d1 :: d2 :: rest2) := by
              simp [scanSymbolsGo, ha, hsub]
            rw [hstep] at hmem
            rcases List.mem_cons.mp hmem with hmem | hmem
            · exact Or.inr ⟨c, d2, hmem⟩
            · have hrec := ih (d1 :: d2 :: rest2) (by omega) 2 tok hmem
              rcases hrec with ⟨c', h1, h2⟩ | h3
              · exact Or.inl ⟨c', h1, List.mem_cons_of_mem c h2⟩
              · exact Or.inr h3
          · have hstep : scanSymbolsGo 0 (c :: d1 :: d2 :: rest2) =
                [c] :: scanSymbolsGo 0 (d1 :: d2 :: rest2) := by
              simp [scanSymbolsGo, ha, hsub]
            rw [hstep] at hmem
            rcases List.mem_cons.mp hmem with hmem | hmem
            · exact Or.inl ⟨c, hmem, by simp⟩
            · have hrec := ih (d1 :: d2 :: rest2) (by omega) 0 tok hmem
              rcases hrec with ⟨c', h1, h2⟩ | h3
              · exact Or.inl ⟨c', h1, List.mem_cons_of_mem c h2⟩
              · exact Or.inr h3
      · have hmem' : tok ∈ scanSymbolsGo 0 rest := by simpa [scanSymbolsGo, ha] using hmem
        have hrec := ih rest (by omega) 0 tok hmem'
        rcases hrec with ⟨c', h1, h2⟩ | h3
        · exact Or.inl ⟨c', h1, List.mem_cons_of_mem c h2⟩
        · exact Or.inr h3
    · have hmem' : tok ∈ scanSymbolsGo s rest := by simpa [scanSymbolsGo] using hmem
      have hrec := ih rest (by omega) s tok hmem'
      rcases hrec with ⟨c', h1, h2⟩ | h3
      · exact Or.inl ⟨c', h1, List.mem_cons_of_mem c h2⟩
      · exact Or.inr h3

/-- Counterexample to C8 as stated: on the text "b b" the pass does not
wrap only the first occurrence of the token `b`.  The scan finds two `b`
matches; the second count-1 replace hits the letter `b` inside the markup
`<span class="symbol">` inserted by the first, nesting a span inside the
class attribute instead of leaving a single wrapped first occurrence. -/
theorem c8_counterexample_symbol_wrap :
    applySymbols "b b".toList ≠ specSymbolPass "b b".toList := by decide

/-- C8 amended: the pass attempts one count-1 replacement per match
occurrence (not once per distinct token) over the evolving text, so a
replacement can land inside markup inserted by an earlier one; of the
stopword set, only the single letter 'a' can ever be skipped, because a
scan match is a single letter or a letter-underscore-alphanumeric triple
and so never equals "an", "the", "in", "on", "at", "to" or "for". -/
theorem c8_amended_stopword_matches (t tok : List Char) (h : tok ∈ scanSymbols t) :
    tok ∈ pyStops ↔ tok = ['a'] := by
  have hs := scanSymbolsGo_shape t.length t (le_refl _) 0 tok h
  rcases hs with ⟨c, rfl, _⟩ | ⟨c, d, rfl⟩
  · simp [pyStops]
  · simp [pyStops, show ('_' : Char) ≠ 'h' by decide, show ('_' : Char) ≠ 'o' by decide]

/-- Witness for `c8_amended_stopword_matches`: the token `a` scanned from
"ab" is a stopword. -/
theorem c8_amended_stopword_matches_witness :
    ['a'] ∈ scanSymbols "ab".toList ∧ (['a'] ∈ pyStops ↔ ['a'] = ['a']) :=
  ⟨by decide, c8_amended_stopword_matches "ab".toList ['a'] (by decide)⟩

/-! ## C9: non-idempotence of the formatter -/

theorem replaceFirst_singleton_length (c : Char) (r : List Char) :
    ∀ l : List Char, c ∈ l → (replaceFirst [c] r l).length + 1 = l.length + r.length := by
  intro l
  induction l with
  | nil => intro h; simp at h
  | cons x rest ih =>
    intro h
    by_cases hx : x = c
    · subst hx
      simp [replaceFirst, List.isPrefixOf, List.length_append]
      omega
    · have hcr : c ∈ rest := by
        rcases List.mem_cons.mp h with h1 | h1
        · exact absurd h1.symm hx
        · exact h1
      have hih := ih hcr
      simp only [replaceFirst, List.isPrefixOf, Bool.and_eq_true, beq_iff_eq]
      rw [if_neg (by intro hh; exact hx hh.1.symm)]
      simp only [List.length_cons]
      omega

theorem replaceFirst_singleton_mem (c : Char) (r : List Char) (hc : c ∈ r) :
    ∀ (l : List Char) (d : Char), d ∈ l → d ∈ replaceFirst [c] r l := by
  intro l
  induction l with
  | nil => intro d h; simp at h
  | cons x rest ih =>
    intro d h
    by_cases hx : x = c
    · subst hx
      simp only [replaceFirst, List.isPrefixOf, Bool.and_eq_true, beq_iff_eq]
      rw [if_pos (by simp [List.isPrefixOf])]
      rcases List.mem_cons.mp h with h1 | h1
      · subst h1
        exact List.mem_append_left _ hc
      · exact List.mem_append_right _ (by simpa using h1)
    · simp only [replaceFirst, List.isPrefixOf, Bool.and_eq_true, beq_iff_eq]
      rw [if_neg (by intro hh; exact hx hh.1.symm)]
      rcases List.mem_cons.mp h with h1 | h1
      · subst h1; exact List.mem_cons_self d _
      · exact List.mem_cons_of_mem x (ih d h1)

theorem symFold_length : ∀ (toks : List (List Char)) (acc : List Char),
    (∀ tok ∈ toks, ∃ c, tok = [c] ∧ c ∈ acc) →
    (toks.foldl (fun acc tok =>
        if tok ∈ pyStops then acc
        else replaceFirst tok ("<span class=\"symbol\">".toList ++ tok ++ "</span>".toList) acc)
      acc).length =
      acc.length + 28 * (toks.countP (fun tok => decide (tok ∉ pyStops))) := by
  intro toks
  induction toks with
  | nil => intro acc _; simp
  | cons tok toks ih =>
    intro acc hall
    obtain ⟨c, htok, hcmem⟩ := hall tok (List.mem_cons_self tok toks)
    rw [List.foldl_cons]
    by_cases hstop : tok ∈ pyStops
    · rw [if_pos hstop]
      rw [ih acc (fun tok' ht' => hall tok' (List.mem_cons_of_mem tok ht'))]
      rw [List.countP_cons]
      simp [hstop]
    · rw [if_neg hstop]
      subst htok
      have hwrap_mem : c ∈ ("<span class=\"symbol\">".toList ++ [c] ++ "</span>".toList) := by
        simp
      have hlen := replaceFirst_singleton_length c
        ("<span class=\"symbol\">".toList ++ [c] ++ "</span>".toList) acc hcmem
      have hwlen : ("<span class=\"symbol\">".toList ++ [c] ++ "</span>".toList).length = 29 := by
        simp only [List.length_append, List.length_cons, List.length_nil]
        decide
      have hall' : ∀ tok' ∈ toks, ∃ c', tok' = [c'] ∧
          c' ∈ replaceFirst [c] ("<span class=\"symbol\">".toList ++ [c] ++ "</span>".toList) acc := by
        intro tok' ht'
        obtain ⟨c', h1, h2⟩ := hall tok' (List.mem_cons_of_mem _ ht')
        exact ⟨c', h1, replaceFirst_singleton_mem c _ hwrap_mem acc c' h2⟩
      rw [ih _ hall']
      rw [hwlen] at hlen
      simp [List.countP_cons, hstop]
      simp at hlen
      omega

set_option maxRecDepth 10000 in
/-- C9: `format_mathematical_notation` is total by construction (a Lean
function on strings, always returning a string), but it is not idempotent:
applying it twice to "1" produces a different (much longer) text than
applying it once, because the second application wraps the once-formatted
text in a fresh solution-step div and wraps letters of the previously
inserted markup in symbol spans. -/
theorem c9_formatter_not_idempotent :
    ∃ s : String,
      format_mathematical_notation ( format_mathematical_notation s) ≠
        format_mathematical_notation s := by
  refine ⟨"1", fun heq => ?_⟩
  have hlen := congrArg String.length heq
  have hfst : ( format_mathematical_notation "1").length = 650 := by decide
  have hsingle : (scanSymbols (applySteps (applyInline (applyEquations (replaceStar
      (replaceDoubleStar ( format_mathematical_notation "1").toList)))))).all
      (fun tok => tok.length == 1) = true := by decide
  have hall : ∀ tok ∈ scanSymbols (applySteps (applyInline (applyEquations (replaceStar
      (replaceDoubleStar ( format_mathematical_notation "1").toList))))),
      ∃ c, tok = [c] ∧ c ∈ applySteps (applyInline (applyEquations (replaceStar
        (replaceDoubleStar ( format_mathematical_notation "1").toList)))) := by
    intro tok hmem
    have hs := scanSymbolsGo_shape (applySteps (applyInline (applyEquations (replaceStar
        (replaceDoubleStar ( format_mathematical_notation "1").toList))))).length _
      (le_refl _) 0 tok hmem
    rcases hs with ⟨c, h1, h2⟩ | ⟨c, d, h3⟩
    · exact ⟨c, h1, h2⟩
    · have hone := List.all_eq_true.mp hsingle tok hmem
      rw [h3] at hone
      simp at hone
  have hsnd : ( format_mathematical_notation ( format_mathematical_notation "1")).length =
      (applySteps (applyInline (applyEquations (replaceStar
        (replaceDoubleStar ( format_mathematical_notation "1").toList))))).length +
      28 * ((scanSymbols (applySteps (applyInline (applyEquations (replaceStar
        (replaceDoubleStar ( format_mathematical_notation "1").toList)))))).countP
        (fun tok => decide (tok ∉ pyStops))) :=
    symFold_length _ _ hall
  have hX : (applySteps (applyInline (applyEquations (replaceStar
      (replaceDoubleStar ( format_mathematical_notation "1").toList))))).length = 683 := by
    decide
  have hcount : ((scanSymbols (applySteps (applyInline (applyEquations (replaceStar
      (replaceDoubleStar ( format_mathematical_notation "1").toList)))))).countP
      (fun tok => decide (tok ∉ pyStops))) = 396 := by decide
  rw [hsnd, hX, hcount, hfst] at hlen
  omega
